import Mathlib

/-!
Shallow embedding of `src/sync_client.rs` (webhdfs-rs synchronous client):
the execution harness `SyncHdfsClient::exec`, the `ReadHdfsFile` stream
(`open`, `read`, `seek`) and the `WriteHdfsFile` stream (`write`, `flush`).

Machine integers are modelled as `Int`/`Nat` with explicit 64-bit range
checks and wrapping where the Rust code performs them: `i64::checked_add`
becomes `checked_add`, the `as u64` cast becomes `toU64`, and the wrapping
`+=` on an `i64` field becomes `wrapI64`.  Fallible operations return
`Except`.  The asynchronous collaborator (the REST client) is out of scope
in the source as well; its observable outcomes (stat result, chunk
sequence of a range request, append outcome, the timeout race) are inputs
to the embedded functions, exactly in the places where the Rust code
consumes them.
-/

deriving instance DecidableEq for Except

namespace WebHdfs

/-- Rust `i64::MIN`. -/
def i64Min : Int := -9223372036854775808

/-- Rust `i64::MAX`. -/
def i64Max : Int := 9223372036854775807

/-- Value `u64::MAX + 1 = 2^64`, the modulus for `as u64` reinterpretation. -/
def u64Mod : Int := 18446744073709551616

/-- Rust `i64::checked_add`: `some` of the mathematical sum when it fits in
the signed 64-bit range, `none` on overflow. -/
def checked_add (a b : Int) : Option Int :=
  if i64Min ≤ a + b ∧ a + b ≤ i64Max then some (a + b) else none

/-- Rust `as u64` on an `i64` value: twos-complement reinterpretation,
i.e. the value modulo `2^64`, as a natural number. -/
def toU64 (p : Int) : Nat := (p % u64Mod).toNat

/-- Wrapping of a mathematical integer into the signed 64-bit range
(twos-complement), modelling Rust release-mode wrapping `i64` addition. -/
def wrapI64 (x : Int) : Int := (x + 9223372036854775808) % u64Mod - 9223372036854775808

/-- The crate error type (`crate::error::Error`), abstracted to the two
observable kinds this layer distinguishes: the timeout error constructed by
`Error::timeout_c`, and any native error surfaced by the collaborator
client (not-found, permission, connection failure, ...). -/
inductive Error where
  | timeout (msg : String)
  | native (msg : String)
deriving DecidableEq

/-- Model of `std::io::Error` as this file constructs it: either
`IoError::new(ErrorKind::InvalidInput, msg)` or the `From`-conversion of a
crate `Error` (`err.into()`). -/
inductive IoError where
  | invalidInput (msg : String)
  | fromError (e : Error)
deriving DecidableEq

/-- Outcome of racing one asynchronous operation against the deadline timer
of the harness (`f.timeout(timeout)` in `SyncHdfsClient::exec`): either the
operation completed first, with its own result, or the timer elapsed
first. -/
inductive TimeoutRace (R : Type) where
  | completed (r : Except Error R)
  | elapsed

/-- Harness primitive `SyncHdfsClient::exec`: drive the operation to completion under the
deadline.  The `map_err` in the source maps an inner error
(`e.into_inner() == Some(e)`) to itself and an elapsed timer
(`into_inner() == None`) to `Error::timeout_c("HTTP operation timed out")`. -/
def exec (R : Type) (race : TimeoutRace R) : Except Error R :=
  match race with
  | .completed (.ok v) => .ok v
  | .completed (.error e) => .error e
  | .elapsed => .error (.timeout "HTTP operation timed out")

/-- Model of `std::io::SeekFrom`.  `Start` carries a `u64` (a natural number below
`2^64`); `Current` and `End` carry an `i64`. -/
inductive SeekFrom where
  | start (o : Nat)
  | current (o : Int)
  | «end» (o : Int)
deriving DecidableEq

/-- Read stream `ReadHdfsFile`: remote path, length snapshot captured at open time
(`i64`), current position (`i64`).  The `cx : SyncHdfsClient` field carries
no read/seek-relevant state and is omitted. -/
structure ReadHdfsFile where
  path : String
  len : Int
  pos : Int
deriving DecidableEq

/-- Constructor `ReadHdfsFile::open`: issue a `stat` call (its outcome — the
`file_status.length` on success, an error otherwise — is the input
`statResult`), then construct the stream with position 0. -/
def ReadHdfsFile.open (path : String) (statResult : Except Error Int) :
    Except Error ReadHdfsFile :=
  match statResult with
  | .error e => .error e
  | .ok len => .ok (ReadHdfsFile.mk path len 0)

/-- The inner `offset` helper of `ReadHdfsFile::seek`:
`match pos.checked_add(offset) { Some(p) if p < 0 => Err(InvalidInput),
Some(p) if p <= len => Ok(p), _ => Ok(pos) }`. -/
def offset (pos off len : Int) : Except IoError Int :=
  match checked_add pos off with
  | some p =>
    if p < 0 then .error (.invalidInput "attempt to seek before start")
    else if p ≤ len then .ok p
    else .ok pos
  | none => .ok pos

/-- The `match pos { ... }` of `ReadHdfsFile::seek`, computing the new
position.  `SeekFrom::Start(o)` first converts the `u64` offset to `i64`
(`o.try_into()`), failing with `InvalidInput "offset too big"` when
`o > i64::MAX`. -/
def seekPos (pos len : Int) (sf : SeekFrom) : Except IoError Int :=
  match sf with
  | .current o => if o = 0 then .ok pos else offset pos o len
  | .start o =>
    if o = 0 then .ok 0
    else if i64Max < (o : Int) then .error (.invalidInput "offset too big")
    else offset 0 (o : Int) len
  | .«end» o => if o = 0 then .ok len else offset len o len

/-- Seek entry `ReadHdfsFile::seek`: on success the `pos` field of the stream is assigned
the computed position and the position is returned `as u64`; the `?` makes
an error propagate before the assignment. -/
def ReadHdfsFile.seek (f : ReadHdfsFile) (sf : SeekFrom) :
    Except IoError (ReadHdfsFile × Nat) :=
  match seekPos f.pos f.len sf with
  | .error e => .error e
  | .ok p => .ok (ReadHdfsFile.mk f.path f.len p, toU64 p)

/-- The stream state after a seek call: the updated stream on success, the
unchanged stream on error (in Rust, `self.pos = ...?` leaves `self`
untouched when `?` propagates the error). -/
def ReadHdfsFile.afterSeek (f : ReadHdfsFile) (sf : SeekFrom) : ReadHdfsFile :=
  match f.seek sf with
  | .ok fr => fr.1
  | .error _ => f

/-- The mathematical value `base + offset` that a seek targets: base 0 for
`Start`, the current position for `Current`, the snapshot length for
`End`. -/
def seekCandidate (f : ReadHdfsFile) (sf : SeekFrom) : Int :=
  match sf with
  | .start o => (o : Int)
  | .current o => f.pos + o
  | .«end» o => f.len + o

/-- Observable behaviour of the lazy chunk sequence produced by the range
request (`self.cx.acx.open(...)`), as consumed pull-by-pull through
`exec`: a finite list of byte chunks ended either by end-of-sequence
(`Ok((None, _))`) or by an error (including a pull timeout). -/
inductive ChunkStream where
  | eos
  | failed (e : Error)
  | chunk (data : List UInt8) (rest : ChunkStream)
deriving DecidableEq

/-- Total number of payload bytes a chunk stream yields before ending. -/
def totalLen : ChunkStream → Nat
  | .eos => 0
  | .failed _ => 0
  | .chunk d rest => d.length + totalLen rest

/-- Model of `(&mut buf[pos..]).write(&chunk)` for `buf : &mut [u8]`: copy
`min (chunk.length) (buf.length - pos)` bytes of the chunk into the buffer
starting at `pos`, return the updated buffer and the count copied.  This
`Write` impl never errors. -/
def writeSlice (buf : List UInt8) (pos : Nat) (chunk : List UInt8) :
    List UInt8 × Nat :=
  let n := min chunk.length (buf.length - pos)
  (buf.take pos ++ chunk.take n ++ buf.drop (pos + n), n)

/-- The `loop` of `ReadHdfsFile::read`.  State: the stream (whose `pos`
field is advanced by the full chunk length, with `i64` wrapping, before the
copy), the destination buffer, and the local `pos` counter of bytes copied so
far.  Returns the final stream state and buffer (Rust mutates them in
place, so they persist even when the loop breaks with an error) together
with the result: the copied-byte count on end-of-sequence, or the error. -/
def readLoop (f : ReadHdfsFile) (buf : List UInt8) (pos : Nat) :
    ChunkStream → ReadHdfsFile × List UInt8 × Except IoError Nat
  | .eos => (f, buf, .ok pos)
  | .failed e => (f, buf, .error (.fromError e))
  | .chunk d rest =>
    let f' := ReadHdfsFile.mk f.path f.len (wrapI64 (f.pos + wrapI64 (d.length : Int)))
    let w := writeSlice buf pos d
    readLoop f' w.1 (pos + w.2) rest

/-- The single range request `ReadHdfsFile::read` issues: `none` when the
buffer length does not fit in an `i64` (the `try_into` fails before any
request is made), otherwise `(offset = pos, length = buffer length)` as
passed to `OpenOptions::new().offset(self.pos).length(buf_len)`. -/
def ReadHdfsFile.readRequest (f : ReadHdfsFile) (bufLen : Nat) :
    Option (Int × Int) :=
  if i64Max < (bufLen : Int) then none else some (f.pos, (bufLen : Int))

/-- Read entry `ReadHdfsFile::read`: reject a buffer whose length exceeds `i64::MAX`
with `InvalidInput "buffer too big"`, otherwise issue the range request and
run the pull loop over its chunk sequence `s` starting with 0 bytes
copied. -/
def ReadHdfsFile.read (f : ReadHdfsFile) (buf : List UInt8) (s : ChunkStream) :
    ReadHdfsFile × List UInt8 × Except IoError Nat :=
  match f.readRequest buf.length with
  | none => (f, buf, .error (.invalidInput "buffer too big"))
  | some _ => readLoop f buf 0 s

/-- Write stream `WriteHdfsFile`: remote path (the `cx` harness field carries no
write-relevant state and is omitted). -/
structure WriteHdfsFile where
  path : String
deriving DecidableEq

/-- One append request as issued by `WriteHdfsFile::write`: target path and
the owned copy of the callers buffer. -/
structure AppendRequest where
  path : String
  body : List UInt8
deriving DecidableEq

/-- Write entry `WriteHdfsFile::write`: copy the input buffer into an owned vector,
issue one append request carrying it, block on that request through `exec`
(its outcome is the input `outcome`), and on success report the full input
length as bytes written. -/
def WriteHdfsFile.write (w : WriteHdfsFile) (buf : List UInt8)
    (outcome : Except Error Unit) : AppendRequest × Except IoError Nat :=
  (AppendRequest.mk w.path buf,
    match outcome with
    | .ok _ => .ok buf.length
    | .error e => .error (.fromError e))

/-- Flush `WriteHdfsFile::flush`: returns `Ok(())`, unconditionally. -/
def WriteHdfsFile.flush (_w : WriteHdfsFile) : Except IoError Unit := .ok ()

/-! Helper lemmas: arithmetic facts about the 64-bit model, and
characterizations of `offset`, `seekPos`, `seek`, `afterSeek`, `writeSlice`
and `readLoop` used by the claim theorems below. -/

/-- For a value in the nonnegative signed range, the `as u64` cast is the
identity (as `Int.toNat`). -/
theorem toU64_eq_toNat (p : Int) (h0 : 0 ≤ p) (h1 : p ≤ i64Max) : toU64 p = p.toNat := by
  unfold toU64 u64Mod
  unfold i64Max at h1
  omega

/-- Wrapping is the identity inside the signed 64-bit range. -/
theorem wrapI64_id (x : Int) (h0 : i64Min ≤ x) (h1 : x ≤ i64Max) : wrapI64 x = x := by
  unfold wrapI64 u64Mod
  unfold i64Min at h0
  unfold i64Max at h1
  omega

theorem i64Min_neg : i64Min < 0 := by
  unfold i64Min
  omega

theorem i64Max_pos : 0 < i64Max := by
  unfold i64Max
  omega

/-- Branch structure of the `offset` helper as one if-tree. -/
theorem offset_spec (pos off len : Int) :
    offset pos off len =
      if i64Min ≤ pos + off ∧ pos + off ≤ i64Max then
        if pos + off < 0 then Except.error (IoError.invalidInput "attempt to seek before start")
        else if pos + off ≤ len then Except.ok (pos + off)
        else Except.ok pos
      else Except.ok pos := by
  by_cases hc : i64Min ≤ pos + off ∧ pos + off ≤ i64Max
  · simp only [offset, checked_add, if_pos hc]
  · simp only [offset, checked_add, if_neg hc]

theorem offset_ok_in (pos off len : Int) (h1 : i64Min ≤ pos + off) (h2 : pos + off ≤ i64Max)
    (h3 : 0 ≤ pos + off) (h4 : pos + off ≤ len) : offset pos off len = .ok (pos + off) := by
  rw [offset_spec, if_pos (And.intro h1 h2), if_neg (by omega), if_pos h4]

theorem offset_err_neg (pos off len : Int) (h1 : i64Min ≤ pos + off) (h2 : pos + off ≤ i64Max)
    (h3 : pos + off < 0) :
    offset pos off len = .error (.invalidInput "attempt to seek before start") := by
  rw [offset_spec, if_pos (And.intro h1 h2), if_pos h3]

theorem offset_ok_past (pos off len : Int) (h1 : i64Min ≤ pos + off) (h2 : pos + off ≤ i64Max)
    (h3 : ¬ pos + off < 0) (h4 : len < pos + off) : offset pos off len = .ok pos := by
  rw [offset_spec, if_pos (And.intro h1 h2), if_neg h3, if_neg (by omega)]

theorem offset_ok_overflow (pos off len : Int)
    (h : ¬ (i64Min ≤ pos + off ∧ pos + off ≤ i64Max)) : offset pos off len = .ok pos := by
  rw [offset_spec, if_neg h]

theorem seekPos_current_zero (pos len : Int) : seekPos pos len (.current 0) = .ok pos := by
  simp [seekPos]

theorem seekPos_current (pos len o : Int) (ho : o ≠ 0) :
    seekPos pos len (.current o) = offset pos o len := by
  simp [seekPos, ho]

theorem seekPos_start_zero (pos len : Int) : seekPos pos len (.start 0) = .ok 0 := by
  simp [seekPos]

theorem seekPos_start_big (pos len : Int) (n : Nat) (hn : n ≠ 0) (h : i64Max < (n : Int)) :
    seekPos pos len (.start n) = .error (.invalidInput "offset too big") := by
  simp [seekPos, hn, h]

theorem seekPos_start (pos len : Int) (n : Nat) (hn : n ≠ 0) (h : ¬ i64Max < (n : Int)) :
    seekPos pos len (.start n) = offset 0 (n : Int) len := by
  simp [seekPos, hn, h]

theorem seekPos_end_zero (pos len : Int) : seekPos pos len (.«end» 0) = .ok len := by
  simp [seekPos]

theorem seekPos_end (pos len o : Int) (ho : o ≠ 0) :
    seekPos pos len (.«end» o) = offset len o len := by
  simp [seekPos, ho]

theorem seek_of_seekPos_ok (f : ReadHdfsFile) (sf : SeekFrom) (p : Int)
    (h : seekPos f.pos f.len sf = .ok p) :
    f.seek sf = .ok (ReadHdfsFile.mk f.path f.len p, toU64 p) := by
  unfold ReadHdfsFile.seek
  rw [h]

theorem seek_of_seekPos_err (f : ReadHdfsFile) (sf : SeekFrom) (e : IoError)
    (h : seekPos f.pos f.len sf = .error e) : f.seek sf = .error e := by
  unfold ReadHdfsFile.seek
  rw [h]

theorem afterSeek_of_ok (f : ReadHdfsFile) (sf : SeekFrom) (p : Int)
    (h : seekPos f.pos f.len sf = .ok p) :
    f.afterSeek sf = ReadHdfsFile.mk f.path f.len p := by
  unfold ReadHdfsFile.afterSeek
  rw [seek_of_seekPos_ok f sf p h]

theorem afterSeek_of_err (f : ReadHdfsFile) (sf : SeekFrom) (e : IoError)
    (h : seekPos f.pos f.len sf = .error e) : f.afterSeek sf = f := by
  unfold ReadHdfsFile.afterSeek
  rw [seek_of_seekPos_err f sf e h]

theorem mk_eta (f : ReadHdfsFile) : ReadHdfsFile.mk f.path f.len f.pos = f := rfl

/-- A successful `seekPos` yields a nonnegative position whenever the
current position and the snapshot length are nonnegative. -/
theorem seekPos_ok_nonneg (pos len : Int) (sf : SeekFrom) (p : Int)
    (hp : 0 ≤ pos) (hl : 0 ≤ len) (h : seekPos pos len sf = .ok p) : 0 ≤ p := by
  have offh : ∀ b o, 0 ≤ b → offset b o len = .ok p → 0 ≤ p := by
    intro b o hb ho
    rw [offset_spec] at ho
    by_cases hc : i64Min ≤ b + o ∧ b + o ≤ i64Max
    · rw [if_pos hc] at ho
      by_cases hneg : b + o < 0
      · rw [if_pos hneg] at ho
        exact absurd ho (by simp)
      · rw [if_neg hneg] at ho
        by_cases hle : b + o ≤ len
        · rw [if_pos hle] at ho
          simp only [Except.ok.injEq] at ho
          omega
        · rw [if_neg hle] at ho
          simp only [Except.ok.injEq] at ho
          omega
    · rw [if_neg hc] at ho
      simp only [Except.ok.injEq] at ho
      omega
  cases sf with
  | current o =>
    by_cases ho : o = 0
    · subst ho
      rw [seekPos_current_zero] at h
      simp only [Except.ok.injEq] at h
      omega
    · rw [seekPos_current pos len o ho] at h
      exact offh pos o hp h
  | start n =>
    by_cases hn : n = 0
    · subst hn
      rw [seekPos_start_zero] at h
      simp only [Except.ok.injEq] at h
      omega
    · by_cases hbig : i64Max < (n : Int)
      · rw [seekPos_start_big pos len n hn hbig] at h
        exact absurd h (by simp)
      · rw [seekPos_start pos len n hn hbig] at h
        exact offh 0 (n : Int) le_rfl h
  | «end» o =>
    by_cases ho : o = 0
    · subst ho
      rw [seekPos_end_zero] at h
      simp only [Except.ok.injEq] at h
      omega
    · rw [seekPos_end pos len o ho] at h
      exact offh len o hl h

theorem readLoop_eos (f : ReadHdfsFile) (buf : List UInt8) (pos : Nat) :
    readLoop f buf pos .eos = (f, buf, .ok pos) := rfl

theorem readLoop_failed (f : ReadHdfsFile) (buf : List UInt8) (pos : Nat) (e : Error) :
    readLoop f buf pos (.failed e) = (f, buf, .error (.fromError e)) := rfl

theorem readLoop_chunk (f : ReadHdfsFile) (buf : List UInt8) (pos : Nat)
    (d : List UInt8) (rest : ChunkStream) :
    readLoop f buf pos (.chunk d rest) =
      readLoop (ReadHdfsFile.mk f.path f.len (wrapI64 (f.pos + wrapI64 (d.length : Int))))
        (writeSlice buf pos d).1 (pos + (writeSlice buf pos d).2) rest := rfl

theorem writeSlice_snd (buf : List UInt8) (pos : Nat) (d : List UInt8) :
    (writeSlice buf pos d).2 = min d.length (buf.length - pos) := rfl

theorem writeSlice_fst_length (buf : List UInt8) (pos : Nat) (d : List UInt8)
    (h : pos ≤ buf.length) : (writeSlice buf pos d).1.length = buf.length := by
  simp only [writeSlice, List.length_append, List.length_take, List.length_drop]
  omega

/-- Under no-overflow bounds, the loop advances the stream position by
exactly the total number of chunk bytes pulled, whether the stream ends in
end-of-sequence or in an error. -/
theorem readLoop_final_pos (s : ChunkStream) :
    ∀ (f : ReadHdfsFile) (buf : List UInt8) (pos : Nat),
      0 ≤ f.pos → f.pos + (totalLen s : Int) ≤ i64Max →
      (readLoop f buf pos s).1.pos = f.pos + (totalLen s : Int) := by
  have hmin := i64Min_neg
  induction s with
  | eos =>
    intro f buf pos h0 h1
    simp [readLoop_eos, totalLen]
  | failed e =>
    intro f buf pos h0 h1
    simp [readLoop_failed, totalLen]
  | chunk d rest ih =>
    intro f buf pos h0 h1
    have htot : (totalLen (ChunkStream.chunk d rest) : Int) =
        (d.length : Int) + (totalLen rest : Int) := by
      simp [totalLen]
    rw [htot] at h1 ⊢
    rw [readLoop_chunk]
    rw [wrapI64_id (d.length : Int) (by omega) (by omega)]
    rw [wrapI64_id (f.pos + (d.length : Int)) (by omega) (by omega)]
    rw [ih (ReadHdfsFile.mk f.path f.len (f.pos + (d.length : Int)))
      (writeSlice buf pos d).1 (pos + (writeSlice buf pos d).2) (by simp; omega) (by simp; omega)]
    simp
    omega

/-- The loop preserves the buffer length and never reports more copied
bytes than the buffer holds, as long as the running copy counter is within
the buffer. -/
theorem readLoop_buf_bounds (s : ChunkStream) :
    ∀ (f : ReadHdfsFile) (buf : List UInt8) (pos : Nat), pos ≤ buf.length →
      (readLoop f buf pos s).2.1.length = buf.length ∧
      (∀ n, (readLoop f buf pos s).2.2 = .ok n → n ≤ buf.length) := by
  induction s with
  | eos =>
    intro f buf pos h
    refine ⟨rfl, fun n hn => ?_⟩
    rw [readLoop_eos] at hn
    simp only [Except.ok.injEq] at hn
    omega
  | failed e =>
    intro f buf pos h
    refine ⟨rfl, fun n hn => ?_⟩
    rw [readLoop_failed] at hn
    simp at hn
  | chunk d rest ih =>
    intro f buf pos h
    rw [readLoop_chunk]
    have hlen := writeSlice_fst_length buf pos d h
    have hpos : pos + (writeSlice buf pos d).2 ≤ (writeSlice buf pos d).1.length := by
      rw [hlen, writeSlice_snd]
      omega
    have hih := ih (ReadHdfsFile.mk f.path f.len (wrapI64 (f.pos + wrapI64 (d.length : Int))))
      (writeSlice buf pos d).1 (pos + (writeSlice buf pos d).2) hpos
    rw [hlen] at hih
    exact hih

/-! Claim theorems. -/

/-- C1 (counterexample): at position 5 of a length-10 file, a
relative-to-current seek by `i64::MAX` makes the checked addition overflow,
yet the seek succeeds with the position unchanged instead of failing with
an Invalid-Input error as the claim states. -/
theorem seek_overflow_cex :
    ¬ ((ReadHdfsFile.mk "f" 10 5).pos + i64Max ≤ i64Max) ∧
    (ReadHdfsFile.mk "f" 10 5).seek (.current i64Max) =
      .ok (ReadHdfsFile.mk "f" 10 5, 5) := by
  constructor
  · decide
  · decide

/-- C1 (amended): for every seek with a nonzero offset, a negative
candidate `base + offset` (computed without overflow) fails with the
Invalid-Input error `attempt to seek before start` and leaves the position
unchanged, and an absolute seek whose `u64` offset exceeds `i64::MAX`
fails with the Invalid-Input error `offset too big` and leaves the
position unchanged; but when the checked addition overflows, the seek
succeeds and sets the position to the base of the seek: the prior position
(unchanged) for relative-to-current, the captured length for
relative-to-end. -/
theorem seek_negative_or_overflow (f : ReadHdfsFile)
    (hp0 : 0 ≤ f.pos) (hp1 : f.pos ≤ i64Max) (hl0 : 0 ≤ f.len) (hl1 : f.len ≤ i64Max) :
    (∀ o : Int, f.pos + o < 0 → i64Min ≤ f.pos + o →
      f.seek (.current o) = .error (.invalidInput "attempt to seek before start") ∧
      f.afterSeek (.current o) = f) ∧
    (∀ o : Int, f.len + o < 0 → i64Min ≤ f.len + o →
      f.seek (.«end» o) = .error (.invalidInput "attempt to seek before start") ∧
      f.afterSeek (.«end» o) = f) ∧
    (∀ n : Nat, i64Max < (n : Int) →
      f.seek (.start n) = .error (.invalidInput "offset too big") ∧
      f.afterSeek (.start n) = f) ∧
    (∀ o : Int, i64Max < f.pos + o →
      f.seek (.current o) = .ok (f, f.pos.toNat) ∧ f.afterSeek (.current o) = f) ∧
    (∀ o : Int, i64Max < f.len + o →
      f.seek (.«end» o) = .ok (ReadHdfsFile.mk f.path f.len f.len, f.len.toNat) ∧
      f.afterSeek (.«end» o) = ReadHdfsFile.mk f.path f.len f.len) := by
  have hmin := i64Min_neg
  refine ⟨?_, ?_, ?_, ?_, ?_⟩
  · intro o hneg hlow
    have ho : o ≠ 0 := by
      intro ho
      subst ho
      omega
    have h : seekPos f.pos f.len (.current o) =
        .error (.invalidInput "attempt to seek before start") := by
      rw [seekPos_current f.pos f.len o ho]
      exact offset_err_neg f.pos o f.len hlow (by omega) hneg
    exact ⟨seek_of_seekPos_err _ _ _ h, afterSeek_of_err _ _ _ h⟩
  · intro o hneg hlow
    have ho : o ≠ 0 := by
      intro ho
      subst ho
      omega
    have h : seekPos f.pos f.len (.«end» o) =
        .error (.invalidInput "attempt to seek before start") := by
      rw [seekPos_end f.pos f.len o ho]
      exact offset_err_neg f.len o f.len hlow (by omega) hneg
    exact ⟨seek_of_seekPos_err _ _ _ h, afterSeek_of_err _ _ _ h⟩
  · intro n hbig
    have hn : n ≠ 0 := by
      intro hn
      subst hn
      simp only [Nat.cast_zero] at hbig
      omega
    have h := seekPos_start_big f.pos f.len n hn hbig
    exact ⟨seek_of_seekPos_err _ _ _ h, afterSeek_of_err _ _ _ h⟩
  · intro o hover
    have ho : o ≠ 0 := by
      intro ho
      subst ho
      omega
    have h : seekPos f.pos f.len (.current o) = .ok f.pos := by
      rw [seekPos_current f.pos f.len o ho]
      exact offset_ok_overflow f.pos o f.len (by omega)
    rw [← mk_eta f, ← toU64_eq_toNat f.pos hp0 hp1]
    exact ⟨seek_of_seekPos_ok _ _ _ h, afterSeek_of_ok _ _ _ h⟩
  · intro o hover
    have ho : o ≠ 0 := by
      intro ho
      subst ho
      omega
    have h : seekPos f.pos f.len (.«end» o) = .ok f.len := by
      rw [seekPos_end f.pos f.len o ho]
      exact offset_ok_overflow f.len o f.len (by omega)
    rw [← toU64_eq_toNat f.len hl0 hl1]
    exact ⟨seek_of_seekPos_ok _ _ _ h, afterSeek_of_ok _ _ _ h⟩

/-- C1 (witness): at position 5 of a length-10 file, a relative-to-current
seek by -6 fails with `attempt to seek before start` leaving the position
at 5; a relative-to-current seek by `i64::MAX` (overflow) succeeds with the
position unchanged; an absolute seek by `2^63` fails with
`offset too big`. -/
theorem seek_negative_or_overflow_witness :
    ((ReadHdfsFile.mk "f" 10 5).seek (.current (-6)) =
      .error (.invalidInput "attempt to seek before start") ∧
     (ReadHdfsFile.mk "f" 10 5).afterSeek (.current (-6)) = ReadHdfsFile.mk "f" 10 5) ∧
    ((ReadHdfsFile.mk "f" 10 5).seek (.current i64Max) = .ok (ReadHdfsFile.mk "f" 10 5, 5) ∧
     (ReadHdfsFile.mk "f" 10 5).afterSeek (.current i64Max) = ReadHdfsFile.mk "f" 10 5) ∧
    ((ReadHdfsFile.mk "f" 10 5).seek (.start 9223372036854775808) =
      .error (.invalidInput "offset too big") ∧
     (ReadHdfsFile.mk "f" 10 5).afterSeek (.start 9223372036854775808) =
      ReadHdfsFile.mk "f" 10 5) := by
  have h := seek_negative_or_overflow (ReadHdfsFile.mk "f" 10 5)
    (by decide) (by decide) (by decide) (by decide)
  exact ⟨h.1 (-6) (by decide) (by decide), h.2.2.2.1 i64Max (by decide),
    h.2.2.1 9223372036854775808 (by decide)⟩

/-- C2 (counterexample): reading into a 1-byte buffer from position 0 with
a single 2-byte chunk copies 1 byte but advances the position to 2, so the
position does not advance by the number of bytes actually consumed into
the destination as the claim states. -/
theorem read_advance_cex :
    ((ReadHdfsFile.mk "f" 10 0).read [0] (.chunk [1, 2] .eos)).2.2 = .ok 1 ∧
    ((ReadHdfsFile.mk "f" 10 0).read [0] (.chunk [1, 2] .eos)).1.pos ≠ 0 + 1 := by
  constructor
  · decide
  · decide

/-- C2 (amended): each chunk pulled from the range-request sequence
advances the stream position by the full length of the chunk — which
equals the number of bytes copied into the remaining destination space
whenever the chunk fits in that space — and on end-of-sequence the call
returns the total number of bytes copied so far, which may be zero. -/
theorem read_chunk_advance (f : ReadHdfsFile) (buf d : List UInt8) (pos : Nat)
    (rest : ChunkStream) (h0 : 0 ≤ f.pos) (h1 : f.pos + (d.length : Int) ≤ i64Max) :
    readLoop f buf pos (.chunk d rest) =
      readLoop (ReadHdfsFile.mk f.path f.len (f.pos + (d.length : Int)))
        (writeSlice buf pos d).1 (pos + min d.length (buf.length - pos)) rest ∧
    (d.length ≤ buf.length - pos → min d.length (buf.length - pos) = d.length) ∧
    readLoop f buf pos .eos = (f, buf, .ok pos) ∧
    ((buf.length : Int) ≤ i64Max → f.read buf .eos = (f, buf, .ok 0)) := by
  have hmin := i64Min_neg
  refine ⟨?_, fun hfit => by omega, rfl, fun hbuf => ?_⟩
  · rw [readLoop_chunk]
    rw [wrapI64_id (d.length : Int) (by omega) (by omega)]
    rw [wrapI64_id (f.pos + (d.length : Int)) (by omega) (by omega)]
    rw [writeSlice_snd]
  · unfold ReadHdfsFile.read ReadHdfsFile.readRequest
    rw [if_neg (not_lt.mpr hbuf)]
    rfl

/-- C2 (witness): one 1-byte chunk into a 2-byte buffer advances the
position from 0 to 1 and copies 1 byte; a read whose sequence ends
immediately returns 0 bytes copied. -/
theorem read_chunk_advance_witness :
    readLoop (ReadHdfsFile.mk "f" 10 0) [0, 0] 0 (.chunk [7] .eos) =
      (ReadHdfsFile.mk "f" 10 1, [7, 0], .ok 1) ∧
    (ReadHdfsFile.mk "f" 10 0).read [0, 0] .eos = (ReadHdfsFile.mk "f" 10 0, [0, 0], .ok 0) := by
  have h := read_chunk_advance (ReadHdfsFile.mk "f" 10 0) [0, 0] [7] 0 .eos
    (by decide) (by decide)
  constructor
  · rw [h.1]
    decide
  · exact h.2.2.2 (by decide)

/-- C3 (counterexample): at position 5 of a length-10 file, an absolute
seek to 100 (candidate 100 exceeds the length, no overflow) succeeds but
sets the position to 0 and returns 0, so the position is not left
unchanged at its pre-seek value as the claim states. -/
theorem seek_past_eof_moves_cex :
    (ReadHdfsFile.mk "f" 10 5).len < seekCandidate (ReadHdfsFile.mk "f" 10 5) (.start 100) ∧
    (ReadHdfsFile.mk "f" 10 5).seek (.start 100) = .ok (ReadHdfsFile.mk "f" 10 0, 0) ∧
    (ReadHdfsFile.mk "f" 10 5).afterSeek (.start 100) ≠ ReadHdfsFile.mk "f" 10 5 := by
  refine ⟨by decide, by decide, by decide⟩

/-- C3 (amended): for every seek where `base + offset` does not overflow
and the candidate exceeds the length captured at open time, the seek
succeeds and sets the position to the base of the seek — the pre-seek
position (unchanged) for relative-to-current, 0 for absolute, and the
captured length for relative-to-end — returning that base value. -/
theorem seek_past_eof_returns_base (f : ReadHdfsFile)
    (hp0 : 0 ≤ f.pos) (hp1 : f.pos ≤ i64Max) (hl0 : 0 ≤ f.len) (hl1 : f.len ≤ i64Max) :
    (∀ o : Int, f.pos + o ≤ i64Max → f.len < f.pos + o →
      f.seek (.current o) = .ok (f, f.pos.toNat) ∧ f.afterSeek (.current o) = f) ∧
    (∀ n : Nat, (n : Int) ≤ i64Max → f.len < (n : Int) →
      f.seek (.start n) = .ok (ReadHdfsFile.mk f.path f.len 0, 0) ∧
      f.afterSeek (.start n) = ReadHdfsFile.mk f.path f.len 0) ∧
    (∀ o : Int, f.len + o ≤ i64Max → f.len < f.len + o →
      f.seek (.«end» o) = .ok (ReadHdfsFile.mk f.path f.len f.len, f.len.toNat) ∧
      f.afterSeek (.«end» o) = ReadHdfsFile.mk f.path f.len f.len) := by
  have hmin := i64Min_neg
  refine ⟨?_, ?_, ?_⟩
  · intro o hup hpast
    by_cases ho : o = 0
    · subst ho
      have h := seekPos_current_zero f.pos f.len
      rw [← mk_eta f, ← toU64_eq_toNat f.pos hp0 hp1]
      exact ⟨seek_of_seekPos_ok _ _ _ h, afterSeek_of_ok _ _ _ h⟩
    · have h : seekPos f.pos f.len (.current o) = .ok f.pos := by
        rw [seekPos_current f.pos f.len o ho]
        exact offset_ok_past f.pos o f.len (by omega) hup (by omega) hpast
      rw [← mk_eta f, ← toU64_eq_toNat f.pos hp0 hp1]
      exact ⟨seek_of_seekPos_ok _ _ _ h, afterSeek_of_ok _ _ _ h⟩
  · intro n hup hpast
    have hn : n ≠ 0 := by
      intro hn
      subst hn
      simp only [Nat.cast_zero] at hpast
      omega
    have h : seekPos f.pos f.len (.start n) = .ok 0 := by
      rw [seekPos_start f.pos f.len n hn (by omega)]
      exact offset_ok_past 0 (n : Int) f.len (by omega) (by omega) (by omega) (by omega)
    rw [show (0 : Nat) = toU64 0 from rfl]
    exact ⟨seek_of_seekPos_ok _ _ _ h, afterSeek_of_ok _ _ _ h⟩
  · intro o hup hpast
    have ho : o ≠ 0 := by
      intro ho
      subst ho
      omega
    have h : seekPos f.pos f.len (.«end» o) = .ok f.len := by
      rw [seekPos_end f.pos f.len o ho]
      exact offset_ok_past f.len o f.len (by omega) hup (by omega) hpast
    rw [← toU64_eq_toNat f.len hl0 hl1]
    exact ⟨seek_of_seekPos_ok _ _ _ h, afterSeek_of_ok _ _ _ h⟩

/-- C3 (witness): at position 5 of a length-10 file, past-EOF seeks give:
relative-to-current by 100 keeps position 5; absolute to 100 sets position
0; relative-to-end by 7 sets position 10. -/
theorem seek_past_eof_returns_base_witness :
    ((ReadHdfsFile.mk "f" 10 5).seek (.current 100) = .ok (ReadHdfsFile.mk "f" 10 5, 5) ∧
     (ReadHdfsFile.mk "f" 10 5).afterSeek (.current 100) = ReadHdfsFile.mk "f" 10 5) ∧
    ((ReadHdfsFile.mk "f" 10 5).seek (.start 100) = .ok (ReadHdfsFile.mk "f" 10 0, 0) ∧
     (ReadHdfsFile.mk "f" 10 5).afterSeek (.start 100) = ReadHdfsFile.mk "f" 10 0) ∧
    ((ReadHdfsFile.mk "f" 10 5).seek (.«end» 7) = .ok (ReadHdfsFile.mk "f" 10 10, 10) ∧
     (ReadHdfsFile.mk "f" 10 5).afterSeek (.«end» 7) = ReadHdfsFile.mk "f" 10 10) := by
  have h := seek_past_eof_returns_base (ReadHdfsFile.mk "f" 10 5)
    (by decide) (by decide) (by decide) (by decide)
  exact ⟨h.1 100 (by decide) (by decide), h.2.1 100 (by decide) (by decide),
    h.2.2 7 (by decide) (by decide)⟩

/-- C4: for every seek on a ReadHdfsFile where the candidate
`base + offset` satisfies `0 <= candidate <= len` (the length captured at
open time), the new position is exactly the candidate, and that value is
returned as the new absolute position. -/
theorem seek_in_range_moves (f : ReadHdfsFile) (sf : SeekFrom)
    (hl1 : f.len ≤ i64Max)
    (h0 : 0 ≤ seekCandidate f sf) (h1 : seekCandidate f sf ≤ f.len) :
    f.seek sf =
      .ok (ReadHdfsFile.mk f.path f.len (seekCandidate f sf), (seekCandidate f sf).toNat) := by
  have hmin := i64Min_neg
  have hc1 : seekCandidate f sf ≤ i64Max := le_trans h1 hl1
  rw [← toU64_eq_toNat (seekCandidate f sf) h0 hc1]
  apply seek_of_seekPos_ok
  cases sf with
  | current o =>
    simp only [seekCandidate] at h0 h1 hc1 ⊢
    by_cases ho : o = 0
    · subst ho
      rw [seekPos_current_zero]
      simp
    · rw [seekPos_current f.pos f.len o ho, offset_ok_in f.pos o f.len (by omega) hc1 h0 h1]
  | start n =>
    simp only [seekCandidate] at h0 h1 hc1 ⊢
    by_cases hn : n = 0
    · subst hn
      rw [seekPos_start_zero]
      simp
    · rw [seekPos_start f.pos f.len n hn (by omega)]
      have h := offset_ok_in 0 (n : Int) f.len (by omega) (by omega) (by omega) (by omega)
      rw [zero_add] at h
      exact h
  | «end» o =>
    simp only [seekCandidate] at h0 h1 hc1 ⊢
    by_cases ho : o = 0
    · subst ho
      rw [seekPos_end_zero]
      simp
    · rw [seekPos_end f.pos f.len o ho, offset_ok_in f.len o f.len (by omega) hc1 h0 h1]

/-- C4 (witness): on a length-10 file at position 0, an absolute seek to 5
moves the position to 5 and returns 5. -/
theorem seek_in_range_moves_witness :
    (ReadHdfsFile.mk "f" 10 0).seek (.start 5) = .ok (ReadHdfsFile.mk "f" 10 5, 5) := by
  have h := seek_in_range_moves (ReadHdfsFile.mk "f" 10 0) (.start 5)
    (by decide) (by decide) (by decide)
  exact h

/-- C5: a zero-offset relative-to-current seek is a no-op returning the
current position unchanged; a zero-offset absolute seek always sets the
position to 0; a zero-offset relative-to-end seek always sets the position
to the length captured at open time. -/
theorem seek_zero_offset_cases (f : ReadHdfsFile)
    (hp0 : 0 ≤ f.pos) (hp1 : f.pos ≤ i64Max) (hl0 : 0 ≤ f.len) (hl1 : f.len ≤ i64Max) :
    f.seek (.current 0) = .ok (f, f.pos.toNat) ∧
    f.seek (.start 0) = .ok (ReadHdfsFile.mk f.path f.len 0, 0) ∧
    f.seek (.«end» 0) = .ok (ReadHdfsFile.mk f.path f.len f.len, f.len.toNat) := by
  refine ⟨?_, ?_, ?_⟩
  · rw [← mk_eta f, ← toU64_eq_toNat f.pos hp0 hp1]
    exact seek_of_seekPos_ok _ _ _ (seekPos_current_zero f.pos f.len)
  · rw [show (0 : Nat) = toU64 0 from rfl]
    exact seek_of_seekPos_ok _ _ _ (seekPos_start_zero f.pos f.len)
  · rw [← toU64_eq_toNat f.len hl0 hl1]
    exact seek_of_seekPos_ok _ _ _ (seekPos_end_zero f.pos f.len)

/-- C5 (witness): on a length-10 file at position 5, a zero-offset
relative-to-current seek returns 5 with the state unchanged, a zero-offset
absolute seek sets the position to 0, and a zero-offset relative-to-end
seek sets the position to 10. -/
theorem seek_zero_offset_cases_witness :
    (ReadHdfsFile.mk "f" 10 5).seek (.current 0) = .ok (ReadHdfsFile.mk "f" 10 5, 5) ∧
    (ReadHdfsFile.mk "f" 10 5).seek (.start 0) = .ok (ReadHdfsFile.mk "f" 10 0, 0) ∧
    (ReadHdfsFile.mk "f" 10 5).seek (.«end» 0) = .ok (ReadHdfsFile.mk "f" 10 10, 10) := by
  have h := seek_zero_offset_cases (ReadHdfsFile.mk "f" 10 5)
    (by decide) (by decide) (by decide) (by decide)
  exact h

/-- C6: for every operation executed through the harness, when the
deadline timer fires before the operation completes the caller receives
the Timeout error, never a native collaborator error; when the operation
completes first, its own success or error value is returned unchanged. -/
theorem exec_timeout_discipline (R : Type) :
    (∀ v : R, exec R (.completed (.ok v)) = .ok v) ∧
    (∀ e : Error, exec R (.completed (.error e)) = .error e) ∧
    exec R .elapsed = .error (.timeout "HTTP operation timed out") ∧
    (∀ m : String, exec R .elapsed ≠ .error (.native m)) := by
  refine ⟨fun v => rfl, fun e => rfl, rfl, fun m h => ?_⟩
  simp only [exec, Except.error.injEq] at h
  exact Error.noConfusion h

/-- C6 (witness): a completed operation returns its value 7 unchanged; an
elapsed timer yields the Timeout error. -/
theorem exec_timeout_discipline_witness :
    exec Nat (.completed (.ok 7)) = .ok 7 ∧
    exec Nat .elapsed = .error (.timeout "HTTP operation timed out") := by
  have h := exec_timeout_discipline Nat
  exact ⟨h.1 7, h.2.2.1⟩

/-- C7: every write call issues exactly one append request carrying a copy
of the input buffer, on success reports the full input length as bytes
written, on append failure surfaces that error, and flush is a no-op that
always succeeds. -/
theorem write_single_append_flush (w : WriteHdfsFile) (buf : List UInt8)
    (outcome : Except Error Unit) :
    (w.write buf outcome).1 = AppendRequest.mk w.path buf ∧
    (w.write buf (.ok ())).2 = .ok buf.length ∧
    (∀ e : Error, (w.write buf (.error e)).2 = .error (.fromError e)) ∧
    w.flush = .ok () := by
  exact ⟨rfl, rfl, fun e => rfl, rfl⟩

/-- C8: a read whose destination buffer length does not fit in a signed
64-bit integer is rejected with an Invalid-Input error and no range
request is issued; otherwise exactly one range request is issued, starting
at the current position with length equal to the buffer length. -/
theorem read_oversized_rejected (f : ReadHdfsFile) (n : Nat) (buf : List UInt8)
    (s : ChunkStream) (h1 : i64Max < (n : Int)) (h2 : (buf.length : Int) ≤ i64Max) :
    f.readRequest n = none ∧
    f.readRequest buf.length = some (f.pos, (buf.length : Int)) ∧
    f.read buf s = readLoop f buf 0 s ∧
    (∀ (buf2 : List UInt8) (s2 : ChunkStream), f.readRequest buf2.length = none →
      f.read buf2 s2 = (f, buf2, .error (.invalidInput "buffer too big"))) := by
  refine ⟨?_, ?_, ?_, ?_⟩
  · unfold ReadHdfsFile.readRequest
    rw [if_pos h1]
  · unfold ReadHdfsFile.readRequest
    rw [if_neg (not_lt.mpr h2)]
  · unfold ReadHdfsFile.read ReadHdfsFile.readRequest
    rw [if_neg (not_lt.mpr h2)]
  · intro buf2 s2 hnone
    unfold ReadHdfsFile.read
    rw [hnone]

/-- C8 (witness): a buffer length of `2^63` produces no range request,
while a 1-byte buffer at position 3 produces the single range request
`(offset 3, length 1)`. -/
theorem read_oversized_rejected_witness :
    (ReadHdfsFile.mk "f" 10 3).readRequest 9223372036854775808 = none ∧
    (ReadHdfsFile.mk "f" 10 3).readRequest 1 = some (3, 1) := by
  have h := read_oversized_rejected (ReadHdfsFile.mk "f" 10 3) 9223372036854775808 [5] .eos
    (by decide) (by decide)
  exact ⟨h.1, h.2.1⟩

/-- C9: open constructs the stream with position 0; every seek preserves
nonnegativity of the position (given a nonnegative snapshot length, as
delivered by stat); every read preserves it as well (given that the pulled
bytes keep the position within the signed 64-bit range). -/
theorem read_file_pos_invariant :
    (∀ (path : String) (st : Except Error Int) (f : ReadHdfsFile),
      ReadHdfsFile.open path st = .ok f → f.pos = 0) ∧
    (∀ (f : ReadHdfsFile) (sf : SeekFrom), 0 ≤ f.pos → 0 ≤ f.len →
      0 ≤ (f.afterSeek sf).pos) ∧
    (∀ (f : ReadHdfsFile) (buf : List UInt8) (s : ChunkStream),
      0 ≤ f.pos → f.pos + (totalLen s : Int) ≤ i64Max → 0 ≤ (f.read buf s).1.pos) := by
  refine ⟨?_, ?_, ?_⟩
  · intro path st f h
    cases st with
    | error e => exact absurd h (by simp [ReadHdfsFile.open])
    | ok len =>
      simp only [ReadHdfsFile.open, Except.ok.injEq] at h
      rw [← h]
  · intro f sf hp hl
    cases hs : seekPos f.pos f.len sf with
    | error e =>
      rw [afterSeek_of_err f sf e hs]
      exact hp
    | ok p =>
      rw [afterSeek_of_ok f sf p hs]
      exact seekPos_ok_nonneg f.pos f.len sf p hp hl hs
  · intro f buf s h0 h1
    unfold ReadHdfsFile.read ReadHdfsFile.readRequest
    by_cases hb : i64Max < (buf.length : Int)
    · rw [if_pos hb]
      exact h0
    · rw [if_neg hb]
      have h := readLoop_final_pos s f buf 0 h0 h1
      show 0 ≤ (readLoop f buf 0 s).1.pos
      rw [h]
      have : (0 : Int) ≤ (totalLen s : Int) := Int.ofNat_nonneg _
      omega

/-- C9 (witness): a freshly opened length-10 stream has position 0; a
failed backward seek leaves the position nonnegative; a 1-chunk read
leaves the position nonnegative. -/
theorem read_file_pos_invariant_witness :
    (ReadHdfsFile.mk "f" 10 0).pos = 0 ∧
    0 ≤ ((ReadHdfsFile.mk "f" 10 5).afterSeek (.current (-3))).pos ∧
    0 ≤ ((ReadHdfsFile.mk "f" 10 0).read [0, 0] (.chunk [9] .eos)).1.pos := by
  have h := read_file_pos_invariant
  exact ⟨h.1 "f" (.ok 10) (ReadHdfsFile.mk "f" 10 0) rfl,
    h.2.1 (ReadHdfsFile.mk "f" 10 5) (.current (-3)) (by decide) (by decide),
    h.2.2 (ReadHdfsFile.mk "f" 10 0) [0, 0] (.chunk [9] .eos) (by decide) (by decide)⟩

/-- C10: for every read call, the destination buffer keeps its length
(bytes are copied only within it) and the returned byte count never
exceeds that length, even when a chunk is larger than the remaining
destination space. -/
theorem read_within_buffer_bounds (f : ReadHdfsFile) (buf : List UInt8) (s : ChunkStream) :
    (f.read buf s).2.1.length = buf.length ∧
    (∀ n, (f.read buf s).2.2 = .ok n → n ≤ buf.length) := by
  unfold ReadHdfsFile.read ReadHdfsFile.readRequest
  by_cases hb : i64Max < (buf.length : Int)
  · rw [if_pos hb]
    refine ⟨rfl, fun n hn => ?_⟩
    simp at hn
  · rw [if_neg hb]
    exact readLoop_buf_bounds s f buf 0 (Nat.zero_le _)

/-- C10 (witness): a 3-byte chunk read into a 2-byte buffer keeps the
buffer at length 2 and reports 2 bytes, within the capacity. -/
theorem read_within_buffer_bounds_witness :
    ((ReadHdfsFile.mk "f" 10 0).read [0, 0] (.chunk [9, 9, 9] .eos)).2.1.length = 2 ∧
    (2 : Nat) ≤ 2 := by
  have h := read_within_buffer_bounds (ReadHdfsFile.mk "f" 10 0) [0, 0] (.chunk [9, 9, 9] .eos)
  exact ⟨h.1, h.2 2 (by decide)⟩

end WebHdfs
